import Mathlib

/-!
Verification of the signal-routing and test-harness core of the
service_tests repository, shallowly embedded in Lean 4.

The embedding covers:
* router.py: ServiceTestRouter.notify_signals, its receiver resolution,
  the per-receiver deepcopy, and the process_signals interception wrapper
  installed by _setup_processed / _call_processed;
* service_test_case.py: _find_resource, get_block_id,
  wait_for_processed_signals and wait_for_published_signals;
* scheduler/job.py: the Job handle (its Scheduler collaborator is not in
  the source tree and is modelled from the spec).

Python signal objects are modelled as heap references: a batch is a list
of addresses into a heap (Nat to Nat), so that object identity (which
address) and object value (what the heap holds there) are distinguished,
exactly the distinction deepcopy creates.
-/

set_option maxRecDepth 4096

/-- The reserved default-terminal port value from router.py and the spec. -/
def defaultTerminal : String := "__default_terminal_value"

/-- Pointwise heap update, modelling mutation of one Python object. -/
def heapUpdate (h : Nat → Nat) (a v : Nat) : Nat → Nat :=
  fun x => if x = a then v else h x

/-- One receiver entry of a receiver map: router.py reads receiver["name"]
and receiver["input"]. -/
structure Receiver where
  name : String
  input : String
deriving DecidableEq

/-- One entry of the execution graph description: a node name together with
its receiver map (output port to receiver list), as read by router.py. -/
structure ExecEntry where
  name : String
  receivers : List (String × List Receiver)
deriving DecidableEq

/-- A unit of work launched by notify_signals: spawn of
to_block.process_signals with a cloned batch, with the input port argument
present or omitted. -/
structure Dispatch where
  target : String
  signals : List Nat
  input : Option String
deriving DecidableEq

/-- The synchronous failures of router.py notify_signals: the list
comprehension indexed at [0] raises IndexError when the source name is not
in the execution description, and the registry lookup
self._blocks[receiver_name] raises KeyError.  The spec names both
RoutingError. -/
inductive RouterErr where
  | indexError : RouterErr
  | keyError : String → RouterErr
deriving DecidableEq

/-- Result of copying a batch: the clone addresses, the heap after the
copy, and the next free address. -/
structure CopyOut where
  addrs : List Nat
  heap : Nat → Nat
  next : Nat

/-- copy.deepcopy on a batch of signals: every signal is recreated as a
fresh object (fresh address) holding the same value. -/
def deepcopy (h : Nat → Nat) (n : Nat) : List Nat → CopyOut
  | [] => ⟨[], h, n⟩
  | a :: as =>
    let out := deepcopy (heapUpdate h n (h a)) (n + 1) as
    ⟨n :: out.addrs, out.heap, out.next⟩

/-- The router state bound by configure(context): the execution graph
description and the block registry (modelled by its key set, which is all
notify_signals consults). -/
structure RouterState where
  execution : List ExecEntry
  blocks : List String

/-- Observable outcome of one notify_signals call: the dispatches launched
before any failure, the synchronous error if one was raised, and the heap
and allocator after the per-receiver copies. -/
structure DispatchOut where
  launched : List Dispatch
  err : Option RouterErr
  heap : Nat → Nat
  next : Nat

/-- The receiver loop of notify_signals (router.py lines 29-39): for each
receiver, look the target up in the registry (KeyError stops the loop),
deepcopy the batch, and spawn process_signals, omitting the input port
argument exactly when the receiver input is the default terminal. -/
def dispatchLoop (blocks : List String) (signals : List Nat) :
    List Receiver → (Nat → Nat) → Nat → DispatchOut
  | [], h, n => ⟨[], none, h, n⟩
  | r :: rest, h, n =>
    if r.name ∈ blocks then
      let c := deepcopy h n signals
      let d : Dispatch :=
        ⟨r.name, c.addrs, if r.input = defaultTerminal then none else some r.input⟩
      let out := dispatchLoop blocks signals rest c.heap c.next
      ⟨d :: out.launched, out.err, out.heap, out.next⟩
    else
      ⟨[], some (RouterErr.keyError r.name), h, n⟩

/-- Python dict lookup on an association list (first matching key). -/
def dictLookup {α : Type} (m : List (String × α)) (k : String) : Option α :=
  (m.find? (fun p => p.1 == k)).map (fun p => p.2)

/-- Python dict.get with a default. -/
def dictGetD {α : Type} (m : List (String × α)) (k : String) (d : α) : α :=
  (dictLookup m k).getD d

/-- Lines 23-25 of router.py: the receiver map of the first execution
entry whose name equals the source block name; none models the IndexError
of indexing an empty comprehension at [0]. -/
def source_receiver_map (st : RouterState) (from_name : String) :
    Option (List (String × List Receiver)) :=
  (st.execution.find? (fun e => e.name == from_name)).map (fun e => e.receivers)

/-- Lines 27-28 of router.py: receivers for the output port, falling back
to the default-terminal entry, falling back to the empty list. -/
def resolve_from_map (m : List (String × List Receiver)) (output_id : String) :
    List Receiver :=
  dictGetD m output_id (dictGetD m defaultTerminal [])

/-- ServiceTestRouter.notify_signals (router.py lines 22-39). -/
def notify_signals (st : RouterState) (from_name : String) (signals : List Nat)
    (output_id : String) (h : Nat → Nat) (n : Nat) : DispatchOut :=
  match source_receiver_map st from_name with
  | none => ⟨[], some RouterErr.indexError, h, n⟩
  | some m => dispatchLoop st.blocks signals (resolve_from_map m output_id) h n

/-- Observable actions of the interception wrapper around a block's
process_signals. -/
inductive RAction where
  | processReturn : String → List Nat → RAction
  | ledgerExtend : String → List Nat → RAction
  | eventSet : String → RAction
  | eventClear : String → RAction
  | typeError : String → RAction
deriving DecidableEq

/-- The wrapper built by _call_processed (router.py lines 45-53), as the
trace of what one call to the wrapped process_signals does.  The wrapped
call receives the positional arguments the router spawned: the cloned
batch, and possibly an explicit input port.  After the underlying
process_signals returns, the wrapper runs
self._processed_signals[block_name].extend(star args); with a single
positional argument that extends the ledger with the batch, with two
positional arguments list.extend raises TypeError and the set/clear of the
event never runs. -/
def process_wrapper_trace (b : String) (sigs : List Nat) :
    Option String → List RAction
  | none =>
    [RAction.processReturn b sigs, RAction.ledgerExtend b sigs,
     RAction.eventSet b, RAction.eventClear b]
  | some _ =>
    [RAction.processReturn b sigs, RAction.typeError b]

/-- Effect of one action on the processed-signal ledger. -/
def applyAction (led : String → List Nat) : RAction → (String → List Nat)
  | RAction.ledgerExtend b sigs => fun x => if x = b then led x ++ sigs else led x
  | _ => led

/-- Ledger after replaying a trace. -/
def ledgerAfter (led : String → List Nat) (t : List RAction) : String → List Nat :=
  t.foldl applyAction led

/-- The completion events fired in a trace (each set is immediately
followed by clear, so one entry per pulse). -/
def eventsOf (t : List RAction) : List String :=
  t.filterMap (fun a =>
    match a with
    | RAction.eventSet b => some b
    | _ => none)

/-- Ledger after all launched dispatches have completed (the asynchronous
part of a notify_signals call), completing them in launch order. -/
def runLedger (led : String → List Nat) (ds : List Dispatch) : String → List Nat :=
  ds.foldl (fun l d => ledgerAfter l (process_wrapper_trace d.target d.signals d.input)) led

/-- Events fired once all launched dispatches have completed. -/
def firedEvents (ds : List Dispatch) : List String :=
  (ds.map (fun d => eventsOf (process_wrapper_trace d.target d.signals d.input))).flatten

/-- A block or service configuration resource.  Every resource carries a
name; the id key is optional (setUp line 146 falls back to the name when a
config has no id). -/
structure Resource where
  id : Option String
  name : String
deriving DecidableEq

/-- The KeyError outcomes of _find_resource and of the indexing done by
its callers: missingIdField models the KeyError raised by resource
subscripting when a scanned resource has no id key; notFound models the
KeyError raised explicitly at the end of _find_resource. -/
inductive FindErr where
  | missingIdField : FindErr
  | notFound : FindErr
deriving DecidableEq

/-- The first loop of _find_resource: scan for a resource whose id equals
the identifier.  Subscripting a resource without an id key raises
KeyError before any comparison. -/
def scanById (ident : String) : List Resource → Except FindErr (Option Resource)
  | [] => Except.ok none
  | r :: rest =>
    match r.id with
    | none => Except.error FindErr.missingIdField
    | some i => if i = ident then Except.ok (some r) else scanById ident rest

/-- The second loop of _find_resource: first resource whose name matches. -/
def scanByName (ident : String) (rs : List Resource) : Option Resource :=
  rs.find? (fun r => r.name == ident)

/-- _find_resource (service_test_case.py lines 158-183) applied to a dict
of resources: exact key first, then the id scan over the values, then the
name scan, then KeyError. -/
def find_resource (ident : String) (resources : List (String × Resource)) :
    Except FindErr Resource :=
  match dictLookup resources ident with
  | some r => Except.ok r
  | none =>
    let vals := resources.map (fun p => p.2)
    match scanById ident vals with
    | Except.error e => Except.error e
    | Except.ok (some r) => Except.ok r
    | Except.ok none =>
      match scanByName ident vals with
      | some r => Except.ok r
      | none => Except.error FindErr.notFound

/-- Modelled from the spec: the per-input-port ledger
(router.processed_signals_input) read by wait_for_processed_signals comes
from a router revision that is not in the source tree; the spec (sections
3 and 4.4) describes the processed-signal ledger as optionally further
keyed by input port.  It maps a block id and an input port to the signals
finished on that port. -/
def InputLedger : Type := String → String → List Nat

/-- The slice of NioServiceTestCase state that block lookup and the wait
helpers read: the keys of self._blocks, self.block_configs, the router
ledger, and the per-input-port ledger. -/
structure TestCase where
  blocks : List String
  block_configs : List (String × Resource)
  processed : String → List Nat
  processed_input : InputLedger

/-- get_block_id (service_test_case.py lines 195-201): the identifier
itself when it is a key of self._blocks, otherwise the id field of the
resource _find_resource returns (subscripting which raises KeyError when
the resource has no id). -/
def get_block_id (tc : TestCase) (ident : String) : Except FindErr String :=
  if ident ∈ tc.blocks then Except.ok ident
  else
    match find_resource ident tc.block_configs with
    | Except.error e => Except.error e
    | Except.ok r =>
      match r.id with
      | some i => Except.ok i
      | none => Except.error FindErr.missingIdField

/-- How a wait helper returns: the count condition was met, a wait on the
completion event timed out, or (count zero) the single event wait was
performed.  All three are normal returns. -/
inductive WaitOutcome where
  | satisfied : WaitOutcome
  | timedOut : WaitOutcome
  | eventWaited : WaitOutcome
deriving DecidableEq

/-- The wait loop shared by the wait helpers: while count exceeds the
observed length, wait on the event; a wait that times out returns.  The
schedule lists the outcome of each successive event wait: none for a
timeout, some len for a wake-up with the ledger now of that length; an
exhausted schedule times out. -/
def waitLoop (count : Nat) (len : Nat) : List (Option Nat) → WaitOutcome
  | [] => if count ≤ len then WaitOutcome.satisfied else WaitOutcome.timedOut
  | o :: rest =>
    if count ≤ len then WaitOutcome.satisfied
    else
      match o with
      | none => WaitOutcome.timedOut
      | some len2 => waitLoop count len2 rest

/-- The lengths the wait loop can observe: the initial length, then each
woken length up to the first timeout. -/
def schedLens (len : Nat) : List (Option Nat) → List Nat
  | [] => [len]
  | none :: _ => [len]
  | some len2 :: rest => len :: schedLens len2 rest

/-- The ledger wait_for_processed_signals selects: the per-input-port
ledger when input_id is given, the plain per-block ledger otherwise. -/
def ledgerLen (tc : TestCase) (bid : String) : Option String → Nat
  | some i => (tc.processed_input bid i).length
  | none => (tc.processed bid).length

/-- wait_for_processed_signals (service_test_case.py lines 410-426):
resolve the block id, then with count zero perform one event wait, and
otherwise loop waiting for the selected ledger to reach count.  The
self._blocks subscripts raise KeyError when the resolved id is not a
registry key. -/
def wait_for_processed_signals (tc : TestCase) (block_name : String)
    (count : Nat) (input_id : Option String) (sched : List (Option Nat)) :
    Except FindErr WaitOutcome :=
  match get_block_id tc block_name with
  | Except.error e => Except.error e
  | Except.ok bid =>
    if bid ∈ tc.blocks then
      if count = 0 then Except.ok WaitOutcome.eventWaited
      else Except.ok (waitLoop count (ledgerLen tc bid input_id) sched)
    else Except.error FindErr.notFound

/-- One _published_signals callback: published_signals[topic].extend(sigs)
on a defaultdict of lists, creating the key on first access. -/
def recordPublish (m : List (String × List Nat)) (topic : String)
    (sigs : List Nat) : List (String × List Nat) :=
  if (m.find? (fun p => p.1 == topic)).isSome then
    m.map (fun p => if p.1 = topic then (p.1, p.2 ++ sigs) else p)
  else m ++ [(topic, sigs)]

/-- The published_signals defaultdict built from a sequence of publish
callbacks. -/
def buildPub (events : List (String × List Nat)) : List (String × List Nat) :=
  events.foldl (fun m e => recordPublish m e.1 e.2) []

/-- len(self.published_signals): the number of dict keys, that is of
distinct topics seen. -/
def numTopics (events : List (String × List Nat)) : Nat :=
  (buildPub events).length

/-- Total number of signals published across all callbacks. -/
def totalPub (events : List (String × List Nat)) : Nat :=
  (events.map (fun e => e.2.length)).sum

/-- Number of distinct strings in a list, by first occurrence. -/
def distinctCount (l : List String) : Nat :=
  (l.foldl (fun acc t => if t ∈ acc then acc else acc ++ [t]) []).length

/-- wait_for_published_signals (service_test_case.py lines 428-444): with
count zero a single event wait, otherwise the wait loop on
len(self.published_signals).  Schedule entries carry the cumulative
publish events visible at each wake-up. -/
def wait_for_published_signals (events : List (String × List Nat))
    (count : Nat) (sched : List (Option (List (String × List Nat)))) :
    WaitOutcome :=
  if count = 0 then WaitOutcome.eventWaited
  else waitLoop count (numTopics events) (sched.map (fun o => o.map numTopics))

/-- Modelled from the spec: one scheduled task of the Scheduler that
scheduler/job.py imports, which is not in the source tree.  Spec section
4.2: a task carries its target and arguments, its delay, its due instant,
whether it repeats, and whether it is cancelled. -/
structure STask where
  tid : Nat
  target : String
  args : List Nat
  delay : Nat
  dueAt : Nat
  repeatable : Bool
  cancelled : Bool
deriving DecidableEq

/-- Modelled from the spec: the Scheduler state, a virtual clock plus the
task set and a handle counter. -/
structure SchedState where
  clock : Nat
  tasks : List STask
  nextId : Nat
deriving DecidableEq

/-- Modelled from the spec: schedule_task registers a task due at
clock + delay and returns its handle. -/
def schedule_task (s : SchedState) (target : String) (delay : Nat)
    (repeatable : Bool) (args : List Nat) : Nat × SchedState :=
  (s.nextId,
   ⟨s.clock,
    s.tasks ++ [⟨s.nextId, target, args, delay, s.clock + delay, repeatable, false⟩],
    s.nextId + 1⟩)

/-- Modelled from the spec: unschedule idempotently marks the task with
the given handle cancelled. -/
def unschedule (s : SchedState) (tid : Nat) : SchedState :=
  ⟨s.clock,
   s.tasks.map (fun t => if t.tid = tid then { t with cancelled := true } else t),
   s.nextId⟩

/-- Earliest due, non-cancelled task (ties broken by list order). -/
def pickDue (ts : List STask) (clock : Nat) : Option STask :=
  ts.foldl (fun acc t =>
    if t.cancelled || decide (clock < t.dueAt) then acc
    else
      match acc with
      | none => some t
      | some b => if t.dueAt < b.dueAt then some t else some b) none

/-- Firing one task: a one-shot task retires, a repeating task re-arms at
clock + delay. -/
def fireTask (s : SchedState) (t : STask) : SchedState :=
  ⟨s.clock,
   s.tasks.map (fun u =>
     if u.tid = t.tid then
       if u.repeatable then { u with dueAt := s.clock + u.delay }
       else { u with cancelled := true }
     else u),
   s.nextId⟩

/-- Fire due tasks until none is due (fuel bounds the firings so the
model is total). -/
def fireLoop : Nat → SchedState → SchedState
  | 0, s => s
  | fuel + 1, s =>
    match pickDue s.tasks s.clock with
    | none => s
    | some t => fireLoop fuel (fireTask s t)

/-- Modelled from the spec: jump_ahead advances the virtual clock by the
given number of seconds and synchronously fires every pending task that is
now due, in due order, re-arming repeating tasks. -/
def jump_ahead (s : SchedState) (seconds : Nat) : SchedState :=
  let s2 : SchedState := ⟨s.clock + seconds, s.tasks, s.nextId⟩
  fireLoop ((seconds + 1) * (s2.tasks.length + 1)) s2

/-- The Job handle of scheduler/job.py: it stores only the handle
returned by Scheduler.schedule_task at construction. -/
structure Job where
  handle : Nat
deriving DecidableEq

/-- Job.__init__ (scheduler/job.py lines 6-8). -/
def Job.init (s : SchedState) (target : String) (delta : Nat)
    (repeatable : Bool) (args : List Nat) : Job × SchedState :=
  let p := schedule_task s target delta repeatable args
  (⟨p.1⟩, p.2)

/-- Job.cancel (scheduler/job.py lines 10-11). -/
def Job.cancel (j : Job) (s : SchedState) : SchedState :=
  unschedule s j.handle

/-- Job.jump_ahead (scheduler/job.py lines 13-19): delegates to the
global clock advance of the Scheduler. -/
def Job.jumpAhead (_j : Job) (s : SchedState) (seconds : Nat) : SchedState :=
  jump_ahead s seconds

/-- A heap for the concrete runs: address 0 holds 7. -/
def h0 : Nat → Nat := fun x => if x = 0 then 7 else 0

/-- The empty ledger. -/
def led0 : String → List Nat := fun _ => []

/-- Receivers of node A on port ok in the concrete graph: B on the
default-terminal input, C on input in. -/
def rsAB : List Receiver := [⟨"B", defaultTerminal⟩, ⟨"C", "in"⟩]

/-- A concrete configured router: one source A with the receivers above,
registry holding B and C. -/
def stAB : RouterState := ⟨[⟨"A", [("ok", rsAB)]⟩], ["B", "C"]⟩

/-- A router whose execution description is empty. -/
def stNone : RouterState := ⟨[], ["B"]⟩

/-- A router whose single receiver target D is missing from the registry. -/
def stMiss : RouterState := ⟨[⟨"A", [("ok", [⟨"D", defaultTerminal⟩])]⟩], []⟩

theorem deepcopy_addrs (batch : List Nat) : ∀ h n,
    (deepcopy h n batch).addrs = List.range' n batch.length := by
  induction batch with
  | nil => intro h n; simp [deepcopy]
  | cons a as ih => intro h n; simp [deepcopy, List.range'_succ, ih]

theorem deepcopy_next (batch : List Nat) : ∀ h n,
    (deepcopy h n batch).next = n + batch.length := by
  induction batch with
  | nil => intro h n; simp [deepcopy]
  | cons a as ih => intro h n; simp [deepcopy, ih]; omega

theorem deepcopy_heap_low (batch : List Nat) : ∀ h n x, x < n →
    (deepcopy h n batch).heap x = h x := by
  induction batch with
  | nil => intro h n x _; rfl
  | cons a as ih =>
    intro h n x hx
    show (deepcopy (heapUpdate h n (h a)) (n + 1) as).heap x = h x
    rw [ih _ (n + 1) x (by omega)]
    simp [heapUpdate]
    omega

theorem deepcopy_values (batch : List Nat) : ∀ h n, (∀ a ∈ batch, a < n) →
    (deepcopy h n batch).addrs.map (deepcopy h n batch).heap = batch.map h := by
  induction batch with
  | nil => intro h n _; rfl
  | cons a as ih =>
    intro h n hlt
    have hlow : ∀ b ∈ as, b < n := fun b hb => hlt b (List.mem_cons_of_mem a hb)
    have hrec := ih (heapUpdate h n (h a)) (n + 1)
      (fun b hb => Nat.lt_succ_of_lt (hlow b hb))
    simp only [deepcopy, List.map_cons, List.cons.injEq]
    refine ⟨?_, ?_⟩
    · rw [deepcopy_heap_low as _ (n + 1) n (Nat.lt_succ_self n)]
      simp [heapUpdate]
    · rw [hrec]
      refine List.map_congr_left (fun b hb => ?_)
      have hbn : b ≠ n := Nat.ne_of_lt (hlow b hb)
      simp [heapUpdate, hbn]

theorem dl_heap_low (blocks : List String) (signals : List Nat) :
    ∀ rs h n x, x < n →
    (dispatchLoop blocks signals rs h n).heap x = h x := by
  intro rs
  induction rs with
  | nil => intro h n x _; rfl
  | cons r rest ih =>
    intro h n x hx
    by_cases hmem : r.name ∈ blocks
    · simp only [dispatchLoop, if_pos hmem]
      have hnext := deepcopy_next signals h n
      rw [ih _ _ x (by omega)]
      exact deepcopy_heap_low signals h n x hx
    · simp only [dispatchLoop, if_neg hmem]

theorem dl_launched_get (blocks : List String) (signals : List Nat) :
    ∀ rs h n i d,
    (dispatchLoop blocks signals rs h n).launched.get? i = some d →
    ∃ r, rs.get? i = some r ∧ d.target = r.name ∧
      d.input = (if r.input = defaultTerminal then none else some r.input) ∧
      d.signals = List.range' (n + signals.length * i) signals.length := by
  intro rs
  induction rs with
  | nil => intro h n i d hd; simp [dispatchLoop] at hd
  | cons r rest ih =>
    intro h n i d hd
    by_cases hmem : r.name ∈ blocks
    · simp only [dispatchLoop, if_pos hmem] at hd
      cases i with
      | zero =>
        simp only [List.get?_cons_zero, Option.some.injEq] at hd
        refine ⟨r, rfl, ?_, ?_, ?_⟩
        · rw [← hd]
        · rw [← hd]
        · rw [← hd]
          simp [deepcopy_addrs]
      | succ i' =>
        simp only [List.get?_cons_succ] at hd
        obtain ⟨r', hr', htgt, hinp, hsig⟩ := ih _ _ i' d hd
        refine ⟨r', hr', htgt, hinp, ?_⟩
        rw [hsig, deepcopy_next]
        have : n + signals.length + signals.length * i'
            = n + signals.length * (i' + 1) := by ring
        rw [this]
    · simp only [dispatchLoop, if_neg hmem] at hd
      simp at hd

theorem dl_values (blocks : List String) (signals : List Nat) :
    ∀ rs h n, (∀ a ∈ signals, a < n) →
    ∀ d ∈ (dispatchLoop blocks signals rs h n).launched,
      d.signals.map (dispatchLoop blocks signals rs h n).heap = signals.map h := by
  intro rs
  induction rs with
  | nil => intro h n _ d hd; simp [dispatchLoop] at hd
  | cons r rest ih =>
    intro h n hlt d hd
    by_cases hmem : r.name ∈ blocks
    · simp only [dispatchLoop, if_pos hmem, List.mem_cons] at hd ⊢
      have hnext := deepcopy_next signals h n
      rcases hd with hd | hd
      · subst hd
        simp only
        have haddr : ∀ a ∈ (deepcopy h n signals).addrs, a < n + signals.length := by
          intro a ha
          rw [deepcopy_addrs] at ha
          have := List.mem_range'_1.mp ha
          omega
        have hmap : (deepcopy h n signals).addrs.map
            (dispatchLoop blocks signals rest (deepcopy h n signals).heap
              (deepcopy h n signals).next).heap
            = (deepcopy h n signals).addrs.map (deepcopy h n signals).heap := by
          refine List.map_congr_left (fun a ha => ?_)
          rw [dl_heap_low blocks signals rest _ _ a (by rw [hnext]; exact haddr a ha)]
        rw [hmap, deepcopy_values signals h n hlt]
      · have hlt2 : ∀ a ∈ signals, a < (deepcopy h n signals).next := by
          intro a ha
          rw [hnext]
          have := hlt a ha
          omega
        have := ih (deepcopy h n signals).heap (deepcopy h n signals).next hlt2 d hd
        rw [this]
        refine List.map_congr_left (fun a ha => ?_)
        exact deepcopy_heap_low signals h n a (hlt a ha)
    · simp only [dispatchLoop, if_neg hmem] at hd
      simp at hd

theorem dl_err_at (blocks : List String) (signals : List Nat) :
    ∀ rs h n k r, rs.get? k = some r → r.name ∉ blocks →
    (∀ j, j < k → ∀ rj, rs.get? j = some rj → rj.name ∈ blocks) →
    (dispatchLoop blocks signals rs h n).err = some (RouterErr.keyError r.name) ∧
    (dispatchLoop blocks signals rs h n).launched.length = k := by
  intro rs
  induction rs with
  | nil => intro h n k r hk; simp at hk
  | cons r0 rest ih =>
    intro h n k r hk hmiss hprev
    cases k with
    | zero =>
      simp only [List.get?_cons_zero, Option.some.injEq] at hk
      subst hk
      refine ⟨?_, ?_⟩ <;> simp [dispatchLoop, hmiss]
    | succ k' =>
      have h0mem : r0.name ∈ blocks :=
        hprev 0 (Nat.succ_pos k') r0 rfl
      simp only [List.get?_cons_succ] at hk
      have hprev' : ∀ j, j < k' → ∀ rj, rest.get? j = some rj → rj.name ∈ blocks := by
        intro j hj rj hrj
        exact hprev (j + 1) (Nat.succ_lt_succ hj) rj hrj
      obtain ⟨he, hl⟩ := ih (deepcopy h n signals).heap (deepcopy h n signals).next
        k' r hk hmiss hprev'
      simp only [dispatchLoop, if_pos h0mem]
      exact ⟨he, by simp [hl]⟩

theorem waitLoop_cases (count : Nat) :
    ∀ sched len, waitLoop count len sched = WaitOutcome.satisfied ∨
      waitLoop count len sched = WaitOutcome.timedOut := by
  intro sched
  induction sched with
  | nil =>
    intro len
    by_cases h : count ≤ len <;> simp [waitLoop, h]
  | cons o rest ih =>
    intro len
    by_cases h : count ≤ len
    · simp [waitLoop, h]
    · cases o with
      | none => simp [waitLoop, h]
      | some len2 =>
        simpa [waitLoop, h] using ih len2

theorem waitLoop_satisfied_iff (count : Nat) :
    ∀ sched len, waitLoop count len sched = WaitOutcome.satisfied ↔
      ∃ l ∈ schedLens len sched, count ≤ l := by
  intro sched
  induction sched with
  | nil =>
    intro len
    by_cases h : count ≤ len <;> simp [waitLoop, schedLens, h]
  | cons o rest ih =>
    intro len
    cases o with
    | none =>
      by_cases h : count ≤ len <;> simp [waitLoop, schedLens, h]
    | some len2 =>
      by_cases h : count ≤ len
      · simp [waitLoop, schedLens, h]
      · simp only [waitLoop, schedLens, if_neg h, List.mem_cons]
        rw [ih len2]
        constructor
        · rintro ⟨l, hl, hcl⟩
          exact ⟨l, Or.inr hl, hcl⟩
        · rintro ⟨l, hl | hl, hcl⟩
          · exact absurd hcl (by rw [hl] at hcl ⊢; omega)
          · exact ⟨l, hl, hcl⟩

theorem recordPublish_keys (m : List (String × List Nat)) (topic : String)
    (sigs : List Nat) :
    (recordPublish m topic sigs).map Prod.fst =
      if topic ∈ m.map Prod.fst then m.map Prod.fst
      else m.map Prod.fst ++ [topic] := by
  by_cases h : (m.find? (fun p => p.1 == topic)).isSome
  · have hmem : topic ∈ m.map Prod.fst := by
      obtain ⟨x, hx, hpx⟩ := List.find?_isSome.mp h
      exact List.mem_map.mpr ⟨x, hx, by simpa using hpx⟩
    simp only [recordPublish, if_pos h, if_pos hmem, List.map_map]
    refine List.map_congr_left (fun p _ => ?_)
    by_cases hp : p.1 = topic <;> simp [hp]
  · have hmem : topic ∉ m.map Prod.fst := by
      intro hc
      obtain ⟨x, hx, hfx⟩ := List.mem_map.mp hc
      exact h (List.find?_isSome.mpr ⟨x, hx, by simp [hfx]⟩)
    simp [recordPublish, h, hmem]

theorem buildPub_keys_aux :
    ∀ (events : List (String × List Nat)) (m : List (String × List Nat)),
    ((events.foldl (fun m e => recordPublish m e.1 e.2) m).map Prod.fst) =
      (events.map Prod.fst).foldl
        (fun acc t => if t ∈ acc then acc else acc ++ [t]) (m.map Prod.fst) := by
  intro events
  induction events with
  | nil => intro m; rfl
  | cons e evs ih =>
    intro m
    simp only [List.foldl_cons, List.map_cons]
    rw [ih, recordPublish_keys]

theorem numTopics_eq_distinct (events : List (String × List Nat)) :
    numTopics events = distinctCount (events.map Prod.fst) := by
  unfold numTopics distinctCount buildPub
  rw [← List.length_map
    (List.foldl (fun m e => recordPublish m e.1 e.2) [] events) Prod.fst]
  rw [buildPub_keys_aux events []]
  rfl

theorem scanById_eq_find (ident : String) :
    ∀ rs : List Resource, (∀ r ∈ rs, r.id.isSome) →
    scanById ident rs = Except.ok (rs.find? (fun r => r.id == some ident)) := by
  intro rs
  induction rs with
  | nil => intro _; rfl
  | cons r rest ih =>
    intro hall
    obtain ⟨i, hi⟩ := Option.isSome_iff_exists.mp (hall r (List.mem_cons_self r rest))
    have hrest : ∀ x ∈ rest, x.id.isSome :=
      fun x hx => hall x (List.mem_cons_of_mem r hx)
    by_cases hcase : i = ident
    · simp [scanById, hi, hcase, List.find?]
    · simp only [scanById, hi]
      rw [if_neg hcase, ih hrest]
      have : (r.id == some ident) = false := by
        simp [hi, hcase]
      simp [List.find?, this]

/-- C8: a Job stores exactly the task handle obtained from
Scheduler.schedule_task at construction (and leaves the scheduler state
exactly as schedule_task left it); Job.cancel delegates to the Scheduler
unschedule operation applied to exactly that stored handle, and
Job.jump_ahead delegates to the Scheduler global clock advance; neither
method performs any other state change of its own. -/
theorem job_delegates (target : String) (delta : Nat) (repeatable : Bool)
    (args : List Nat) (s s2 : SchedState) (seconds : Nat) :
    ((Job.init s target delta repeatable args).1).handle
      = (schedule_task s target delta repeatable args).1 ∧
    (Job.init s target delta repeatable args).2
      = (schedule_task s target delta repeatable args).2 ∧
    Job.cancel (Job.init s target delta repeatable args).1 s2
      = unschedule s2 ((Job.init s target delta repeatable args).1).handle ∧
    Job.jumpAhead (Job.init s target delta repeatable args).1 s2 seconds
      = jump_ahead s2 seconds :=
  ⟨rfl, rfl, rfl, rfl⟩

/-- C1: in the interception wrapper the router installs around every
block at configure time, the batch is appended to the ledger only after
the underlying process_signals has returned for that batch, the block
completion event is set only after the ledger append and is cleared
immediately after being set, and at the moment the event is set the
ledger entry already holds the batch, so a woken waiter finds it
present. -/
theorem call_processed_order (b : String) (sigs : List Nat) (io : Option String)
    (led : String → List Nat) :
    (∀ i s, (process_wrapper_trace b sigs io).get? i
        = some (RAction.ledgerExtend b s) →
      ∃ j, j < i ∧ (process_wrapper_trace b sigs io).get? j
        = some (RAction.processReturn b s)) ∧
    (∀ i, (process_wrapper_trace b sigs io).get? i = some (RAction.eventSet b) →
      (∃ j, j < i ∧ (process_wrapper_trace b sigs io).get? j
        = some (RAction.ledgerExtend b sigs)) ∧
      (process_wrapper_trace b sigs io).get? (i + 1)
        = some (RAction.eventClear b)) ∧
    (∀ i, (process_wrapper_trace b sigs io).get? i = some (RAction.eventSet b) →
      ledgerAfter led ((process_wrapper_trace b sigs io).take i) b
        = led b ++ sigs) := by
  cases io with
  | none =>
    refine ⟨?_, ?_, ?_⟩
    · intro i s hi
      rcases i with _ | _ | _ | _ | i
      · simp [process_wrapper_trace] at hi
      · simp only [process_wrapper_trace, List.get?_cons_succ, List.get?_cons_zero,
          Option.some.injEq, RAction.ledgerExtend.injEq] at hi
        exact ⟨0, Nat.zero_lt_one, by simp [process_wrapper_trace, hi.2]⟩
      · simp [process_wrapper_trace] at hi
      · simp [process_wrapper_trace] at hi
      · simp [process_wrapper_trace] at hi
    · intro i hi
      rcases i with _ | _ | _ | _ | i
      · simp [process_wrapper_trace] at hi
      · simp [process_wrapper_trace] at hi
      · exact ⟨⟨1, by omega, by simp [process_wrapper_trace]⟩,
          by simp [process_wrapper_trace]⟩
      · simp [process_wrapper_trace] at hi
      · simp [process_wrapper_trace] at hi
    · intro i hi
      rcases i with _ | _ | _ | _ | i
      · simp [process_wrapper_trace] at hi
      · simp [process_wrapper_trace] at hi
      · simp [process_wrapper_trace, ledgerAfter, applyAction]
      · simp [process_wrapper_trace] at hi
      · simp [process_wrapper_trace] at hi
  | some v =>
    refine ⟨?_, ?_, ?_⟩
    · intro i s hi
      rcases i with _ | _ | i <;> simp [process_wrapper_trace] at hi
    · intro i hi
      rcases i with _ | _ | i <;> simp [process_wrapper_trace] at hi
    · intro i hi
      rcases i with _ | _ | i <;> simp [process_wrapper_trace] at hi

/-- Witness for C1 at a concrete batch: in the trace of a dispatch to
block B with batch [0] and no explicit input, position 2 is the event
set, and the ledger replayed up to it already holds the batch. -/
theorem call_processed_order_witness :
    (process_wrapper_trace "B" [0] none).get? 2 = some (RAction.eventSet "B") ∧
    ledgerAfter led0 ((process_wrapper_trace "B" [0] none).take 2) "B"
      = led0 "B" ++ [0] :=
  ⟨rfl, (call_processed_order "B" [0] none led0).2.2 2 rfl⟩

/-- A router state whose node A has an empty receiver map. -/
def stEmptyMap : RouterState := ⟨[⟨"A", []⟩], ["B"]⟩

/-- C3: notify_signals resolves receivers by exact output-port key, falls
back to the default-terminal entry when the exact key is absent, and when
neither entry exists resolves to no receivers and is a no-op: nothing is
launched, no error is raised, heap and allocator are untouched, and after
the (empty) set of dispatches completes every ledger entry and event is
unchanged. -/
theorem resolve_receivers_fallback (st : RouterState)
    (from_name output_id : String) (m : List (String × List Receiver))
    (hm : source_receiver_map st from_name = some m) :
    (∀ rs, dictLookup m output_id = some rs →
      resolve_from_map m output_id = rs) ∧
    (dictLookup m output_id = none →
      ∀ rs, dictLookup m defaultTerminal = some rs →
        resolve_from_map m output_id = rs) ∧
    (dictLookup m output_id = none → dictLookup m defaultTerminal = none →
      resolve_from_map m output_id = [] ∧
      ∀ signals h n led,
        (notify_signals st from_name signals output_id h n).launched = [] ∧
        (notify_signals st from_name signals output_id h n).err = none ∧
        (notify_signals st from_name signals output_id h n).heap = h ∧
        (notify_signals st from_name signals output_id h n).next = n ∧
        runLedger led (notify_signals st from_name signals output_id h n).launched
          = led ∧
        firedEvents (notify_signals st from_name signals output_id h n).launched
          = []) := by
  refine ⟨?_, ?_, ?_⟩
  · intro rs h1
    simp [resolve_from_map, dictGetD, h1]
  · intro h1 rs h2
    simp [resolve_from_map, dictGetD, h1, h2]
  · intro h1 h2
    have hres : resolve_from_map m output_id = [] := by
      simp [resolve_from_map, dictGetD, h1, h2]
    refine ⟨hres, ?_⟩
    intro signals h n led
    refine ⟨?_, ?_, ?_, ?_, ?_, ?_⟩ <;>
      simp [notify_signals, hm, hres, dispatchLoop, runLedger, firedEvents]

/-- Witness for C3: in the concrete graph, port ok resolves exactly; a
node with an empty receiver map resolves to no receivers and notifying it
launches nothing. -/
theorem resolve_receivers_fallback_witness :
    (source_receiver_map stAB "A" = some [("ok", rsAB)] ∧
      resolve_from_map [("ok", rsAB)] "ok" = rsAB) ∧
    (source_receiver_map stEmptyMap "A" = some [] ∧
      resolve_from_map ([] : List (String × List Receiver)) "out" = [] ∧
      (notify_signals stEmptyMap "A" [0] "out" h0 1).launched = []) :=
  ⟨⟨rfl, (resolve_receivers_fallback stAB "A" "ok" [("ok", rsAB)] rfl).1 rsAB rfl⟩,
   ⟨rfl, ((resolve_receivers_fallback stEmptyMap "A" "out" [] rfl).2.2 rfl rfl).1,
    ((((resolve_receivers_fallback stEmptyMap "A" "out" [] rfl).2.2 rfl rfl).2
      [0] h0 1 led0)).1⟩⟩

/-- C5: notify_signals fails synchronously when the source block name is
not a node of the execution description (nothing is launched), and when
the first resolved receiver whose target is absent from the registry is
reached (exactly the dispatches before it were launched, none past the
failure point).  The spec taxonomy names both failures RoutingError; in
the code they surface as the IndexError of the empty comprehension and
the KeyError of the registry lookup. -/
theorem notify_routing_errors (st : RouterState)
    (from_name output_id : String) (signals : List Nat) (h : Nat → Nat)
    (n : Nat) :
    (source_receiver_map st from_name = none →
      notify_signals st from_name signals output_id h n
        = ⟨[], some RouterErr.indexError, h, n⟩) ∧
    (∀ m k r, source_receiver_map st from_name = some m →
      (resolve_from_map m output_id).get? k = some r →
      r.name ∉ st.blocks →
      (∀ j, j < k → ∀ rj, (resolve_from_map m output_id).get? j = some rj →
        rj.name ∈ st.blocks) →
      (notify_signals st from_name signals output_id h n).err
        = some (RouterErr.keyError r.name) ∧
      (notify_signals st from_name signals output_id h n).launched.length = k) := by
  refine ⟨?_, ?_⟩
  · intro hnone
    simp [notify_signals, hnone]
  · intro m k r hm hk hmiss hprev
    simp only [notify_signals, hm]
    exact dl_err_at st.blocks signals (resolve_from_map m output_id) h n k r
      hk hmiss hprev

/-- Witness for C5: a source absent from the execution description fails
with nothing launched, and a receiver target absent from the registry
fails with the keyed error and nothing launched before it. -/
theorem notify_routing_errors_witness :
    (source_receiver_map stNone "A" = none ∧
      notify_signals stNone "A" [0] "ok" h0 1
        = ⟨[], some RouterErr.indexError, h0, 1⟩) ∧
    ((Receiver.mk "D" defaultTerminal).name ∉ stMiss.blocks ∧
      (notify_signals stMiss "A" [0] "ok" h0 1).err
        = some (RouterErr.keyError (Receiver.mk "D" defaultTerminal).name) ∧
      (notify_signals stMiss "A" [0] "ok" h0 1).launched.length = 0) :=
  ⟨⟨rfl, (notify_routing_errors stNone "A" "ok" [0] h0 1).1 rfl⟩,
   ⟨by decide,
    (notify_routing_errors stMiss "A" "ok" [0] h0 1).2
      [("ok", [⟨"D", defaultTerminal⟩])] 0 ⟨"D", defaultTerminal⟩ rfl rfl
      (by decide) (fun j hj _ _ => absurd hj (by omega))⟩⟩

/-- C7: every launched dispatch corresponds positionally to a resolved
receiver, targets that receiver, and omits the input-port argument
exactly when the receiver input is the default-terminal sentinel, passing
the port explicitly otherwise. -/
theorem dispatch_input_port_arg (st : RouterState)
    (from_name output_id : String) (signals : List Nat) (h : Nat → Nat)
    (n : Nat) (m : List (String × List Receiver))
    (hm : source_receiver_map st from_name = some m) :
    ∀ i d,
      (notify_signals st from_name signals output_id h n).launched.get? i
        = some d →
      ∃ r, (resolve_from_map m output_id).get? i = some r ∧
        d.target = r.name ∧
        (r.input = defaultTerminal → d.input = none) ∧
        (r.input ≠ defaultTerminal → d.input = some r.input) := by
  intro i d hd
  simp only [notify_signals, hm] at hd
  obtain ⟨r, hr, htgt, hinp, _⟩ :=
    dl_launched_get st.blocks signals (resolve_from_map m output_id) h n i d hd
  refine ⟨r, hr, htgt, ?_, ?_⟩
  · intro hdef
    rw [hinp, if_pos hdef]
  · intro hdef
    rw [hinp, if_neg hdef]

/-- Witness for C7: in the concrete graph, the default-terminal receiver
B is dispatched without the input argument and receiver C with explicit
input in is dispatched with it. -/
theorem dispatch_input_port_arg_witness :
    ((notify_signals stAB "A" [0] "ok" h0 1).launched.get? 0
      = some ⟨"B", [1], none⟩) ∧
    ((notify_signals stAB "A" [0] "ok" h0 1).launched.get? 1
      = some ⟨"C", [2], some "in"⟩) ∧
    (∃ r, (resolve_from_map [("ok", rsAB)] "ok").get? 0 = some r ∧
      (Dispatch.mk "B" [1] none).target = r.name ∧
      (r.input = defaultTerminal → (Dispatch.mk "B" [1] none).input = none) ∧
      (r.input ≠ defaultTerminal →
        (Dispatch.mk "B" [1] none).input = some r.input)) ∧
    (∃ r, (resolve_from_map [("ok", rsAB)] "ok").get? 1 = some r ∧
      (Dispatch.mk "C" [2] (some "in")).target = r.name ∧
      (r.input = defaultTerminal →
        (Dispatch.mk "C" [2] (some "in")).input = none) ∧
      (r.input ≠ defaultTerminal →
        (Dispatch.mk "C" [2] (some "in")).input = some r.input)) :=
  ⟨by decide, by decide,
   dispatch_input_port_arg stAB "A" "ok" [0] h0 1 [("ok", rsAB)] rfl 0
     ⟨"B", [1], none⟩ (by decide),
   dispatch_input_port_arg stAB "A" "ok" [0] h0 1 [("ok", rsAB)] rfl 1
     ⟨"C", [2], some "in"⟩ (by decide)⟩

/-- Counterexample for C2 as stated.  In the concrete graph, notifying A
with the one-signal batch at address 0 launches clones at fresh addresses
1 (to B, default-terminal input) and 2 (to C, explicit input in).  After
the dispatches complete, the ledger entry of B is the dispatched deep
copy (address 1) and not the original batch (address 0) even though the
copied value is equal; and for receiver C, whose dispatch passed the
input port explicitly, nothing is appended at all and no completion event
fires (the two-argument list.extend raises TypeError), so the claimed
append-original-then-fire fails on both receivers. -/
theorem notify_ledger_records_clone_cex :
    (notify_signals stAB "A" [0] "ok" h0 1).launched
      = [⟨"B", [1], none⟩, ⟨"C", [2], some "in"⟩] ∧
    runLedger led0 (notify_signals stAB "A" [0] "ok" h0 1).launched "B" = [1] ∧
    (1 : Nat) ∉ ([0] : List Nat) ∧
    (notify_signals stAB "A" [0] "ok" h0 1).heap 1 = h0 0 ∧
    runLedger led0 (notify_signals stAB "A" [0] "ok" h0 1).launched "C" = [] ∧
    firedEvents (notify_signals stAB "A" [0] "ok" h0 1).launched = ["B"] := by
  decide

/-- C2 as amended: for every resolved receiver, the batch the router
appends on completion is the per-receiver deep copy that was dispatched,
value-equal to the original batch but a distinct object; the append and
the event fire happen only for dispatches whose input-port argument was
omitted (default-terminal input), while a dispatch that passed the port
explicitly appends nothing and fires no event, its ledger extend raising
TypeError. -/
theorem notify_ledger_after_dispatch (st : RouterState)
    (from_name output_id : String) (signals : List Nat) (h : Nat → Nat)
    (n : Nat) (led : String → List Nat)
    (hfresh : ∀ a ∈ signals, a < n) :
    ∀ d ∈ (notify_signals st from_name signals output_id h n).launched,
      d.signals.map (notify_signals st from_name signals output_id h n).heap
        = signals.map h ∧
      (d.input = none →
        ledgerAfter led (process_wrapper_trace d.target d.signals d.input)
          d.target = led d.target ++ d.signals ∧
        eventsOf (process_wrapper_trace d.target d.signals d.input)
          = [d.target]) ∧
      (∀ v, d.input = some v →
        ledgerAfter led (process_wrapper_trace d.target d.signals d.input)
          = led ∧
        eventsOf (process_wrapper_trace d.target d.signals d.input) = []) := by
  intro d hd
  rcases hsrc : source_receiver_map st from_name with _ | m
  · simp [notify_signals, hsrc] at hd
  · refine ⟨?_, ?_, ?_⟩
    · simp only [notify_signals, hsrc] at hd ⊢
      exact dl_values st.blocks signals (resolve_from_map m output_id) h n
        hfresh d hd
    · intro hnone
      rw [hnone]
      constructor
      · simp [ledgerAfter, applyAction, process_wrapper_trace]
      · simp [eventsOf, process_wrapper_trace]
    · intro v hv
      rw [hv]
      exact ⟨rfl, rfl⟩

/-- Witness for C2 as amended, at the concrete graph: the clone [1]
dispatched to B is value-equal to the original [0], and since its input
argument was omitted its completion appends exactly the clone and fires
the event of B. -/
theorem notify_ledger_after_dispatch_witness :
    (∀ a ∈ ([0] : List Nat), a < 1) ∧
    ((⟨"B", [1], none⟩ : Dispatch)
      ∈ (notify_signals stAB "A" [0] "ok" h0 1).launched) ∧
    (([1] : List Nat).map (notify_signals stAB "A" [0] "ok" h0 1).heap
      = ([0] : List Nat).map h0 ∧
     ((none : Option String) = none →
        ledgerAfter led0 (process_wrapper_trace "B" [1] none) "B"
          = led0 "B" ++ [1] ∧
        eventsOf (process_wrapper_trace "B" [1] none) = ["B"]) ∧
     (∀ v, (none : Option String) = some v →
        ledgerAfter led0 (process_wrapper_trace "B" [1] none) = led0 ∧
        eventsOf (process_wrapper_trace "B" [1] none) = [])) :=
  ⟨by decide, by decide,
   notify_ledger_after_dispatch stAB "A" "ok" [0] h0 1 led0 (by decide)
     ⟨"B", [1], none⟩ (by decide)⟩

/-- C4: when a notify_signals call launches two or more dispatches, the
copies handed to distinct receivers occupy disjoint fresh addresses, so
mutating any signal of one receiver's batch (a heap update at one of its
addresses, at any moment and on any heap) leaves every value the other
receiver observes through its own batch unchanged. -/
theorem dispatch_copies_isolated (st : RouterState)
    (from_name output_id : String) (signals : List Nat) (h : Nat → Nat)
    (n : Nat)
    (_htwo : 2 ≤ (notify_signals st from_name signals output_id h n).launched.length) :
    ∀ i j di dj, i ≠ j →
      (notify_signals st from_name signals output_id h n).launched.get? i
        = some di →
      (notify_signals st from_name signals output_id h n).launched.get? j
        = some dj →
      (∀ a ∈ di.signals, a ∉ dj.signals) ∧
      (∀ H : Nat → Nat, ∀ v : Nat, ∀ a ∈ di.signals,
        dj.signals.map (heapUpdate H a v) = dj.signals.map H) := by
  intro i j di dj hij hi hj
  rcases hsrc : source_receiver_map st from_name with _ | m
  · simp [notify_signals, hsrc] at hi
  · simp only [notify_signals, hsrc] at hi hj
    obtain ⟨ri, _, _, _, hsigi⟩ :=
      dl_launched_get st.blocks signals (resolve_from_map m output_id) h n i di hi
    obtain ⟨rj, _, _, _, hsigj⟩ :=
      dl_launched_get st.blocks signals (resolve_from_map m output_id) h n j dj hj
    have hdisj : ∀ a ∈ di.signals, a ∉ dj.signals := by
      intro a hai haj
      rw [hsigi] at hai
      rw [hsigj] at haj
      have h1 := List.mem_range'_1.mp hai
      have h2 := List.mem_range'_1.mp haj
      rcases Nat.lt_or_ge i j with hlt | hge
      · have hmul := Nat.mul_le_mul_left signals.length hlt
        rw [Nat.mul_succ] at hmul
        omega
      · have hlt : j < i := by omega
        have hmul := Nat.mul_le_mul_left signals.length hlt
        rw [Nat.mul_succ] at hmul
        omega
    refine ⟨hdisj, ?_⟩
    intro H v a ha
    refine List.map_congr_left (fun x hx => ?_)
    have hxa : x ≠ a := by
      intro hcontra
      exact hdisj a ha (hcontra ▸ hx)
    simp [heapUpdate, hxa]

/-- Witness for C4: the two dispatches of the concrete call hold disjoint
clones [1] and [2], and updating the one address of the B clone never
changes the value seen through the C clone. -/
theorem dispatch_copies_isolated_witness :
    (2 ≤ (notify_signals stAB "A" [0] "ok" h0 1).launched.length) ∧
    ((0 : Nat) ≠ 1) ∧
    ((notify_signals stAB "A" [0] "ok" h0 1).launched.get? 0
      = some ⟨"B", [1], none⟩) ∧
    ((notify_signals stAB "A" [0] "ok" h0 1).launched.get? 1
      = some ⟨"C", [2], some "in"⟩) ∧
    ((∀ a ∈ (Dispatch.mk "B" [1] none).signals,
        a ∉ (Dispatch.mk "C" [2] (some "in")).signals) ∧
     (∀ H : Nat → Nat, ∀ v : Nat,
        ∀ a ∈ (Dispatch.mk "B" [1] none).signals,
        (Dispatch.mk "C" [2] (some "in")).signals.map (heapUpdate H a v)
          = (Dispatch.mk "C" [2] (some "in")).signals.map H)) :=
  ⟨by decide, by decide, by decide, by decide,
   dispatch_copies_isolated stAB "A" "ok" [0] h0 1 (by decide) 0 1
     ⟨"B", [1], none⟩ ⟨"C", [2], some "in"⟩ (by decide) (by decide) (by decide)⟩

/-- A concrete harness state: one registered block b1 whose plain ledger
holds one signal and whose per-input ledgers are empty. -/
def tc1 : TestCase := ⟨["b1"], [], fun _ => [0], fun _ _ => []⟩

/-- C6: for a resolvable, registered block, wait_for_processed_signals
with count at least one returns normally in both outcomes - it reports
satisfied exactly when the selected ledger (per block, or per block and
input port when input_id is given) shows at least count entries at some
observed point, and otherwise reports a timeout instead of raising - and
with count zero it performs one wait on the block completion event, up to
the timeout, and returns normally. -/
theorem wait_for_processed_returns (tc : TestCase) (bn bid : String)
    (count : Nat) (input_id : Option String) (sched : List (Option Nat))
    (hb : get_block_id tc bn = Except.ok bid) (hmem : bid ∈ tc.blocks) :
    (1 ≤ count →
      ∃ o, wait_for_processed_signals tc bn count input_id sched
          = Except.ok o ∧
        (o = WaitOutcome.satisfied ∨ o = WaitOutcome.timedOut) ∧
        (o = WaitOutcome.satisfied ↔
          ∃ l ∈ schedLens (ledgerLen tc bid input_id) sched, count ≤ l)) ∧
    (count = 0 →
      wait_for_processed_signals tc bn count input_id sched
        = Except.ok WaitOutcome.eventWaited) := by
  constructor
  · intro hc
    have hcnz : count ≠ 0 := by omega
    refine ⟨waitLoop count (ledgerLen tc bid input_id) sched, ?_, ?_, ?_⟩
    · simp [wait_for_processed_signals, hb, hmem, hcnz]
    · exact waitLoop_cases count sched (ledgerLen tc bid input_id)
    · exact waitLoop_satisfied_iff count sched (ledgerLen tc bid input_id)
  · intro hc
    subst hc
    simp [wait_for_processed_signals, hb, hmem]

/-- Witness for C6: on the concrete harness state, a count-one wait is
already satisfied by the one-entry ledger, and a count-zero wait with an
input port returns after the single event wait. -/
theorem wait_for_processed_returns_witness :
    (get_block_id tc1 "b1" = Except.ok "b1") ∧ ("b1" ∈ tc1.blocks) ∧
    (1 ≤ 1) ∧
    (∃ o, wait_for_processed_signals tc1 "b1" 1 none [] = Except.ok o ∧
      (o = WaitOutcome.satisfied ∨ o = WaitOutcome.timedOut) ∧
      (o = WaitOutcome.satisfied ↔
        ∃ l ∈ schedLens (ledgerLen tc1 "b1" none) [], 1 ≤ l)) ∧
    (wait_for_processed_signals tc1 "b1" 0 (some "in") []
      = Except.ok WaitOutcome.eventWaited) :=
  ⟨rfl, by decide, by decide,
   (wait_for_processed_returns tc1 "b1" "b1" 1 none [] rfl (by decide)).1
     (by decide),
   (wait_for_processed_returns tc1 "b1" "b1" 0 (some "in") [] rfl
     (by decide)).2 rfl⟩

/-- C9: wait_for_published_signals with count k at least one loops on
len(published_signals), the number of distinct topics recorded (equal,
when every publish callback delivered a nonempty batch, to the number of
distinct topics that received at least one signal); it reports satisfied
exactly when the observed topic count reaches k, returns normally as a
timeout otherwise, and in particular k total signals on fewer than k
topics do not satisfy it. -/
theorem wait_for_published_counts_topics (k : Nat) (hk : 1 ≤ k)
    (events : List (String × List Nat))
    (sched : List (Option (List (String × List Nat))))
    (hne : ∀ e ∈ events, e.2 ≠ []) :
    (wait_for_published_signals events k sched = WaitOutcome.satisfied ∨
     wait_for_published_signals events k sched = WaitOutcome.timedOut) ∧
    (wait_for_published_signals events k sched = WaitOutcome.satisfied ↔
      ∃ l ∈ schedLens (numTopics events)
        (sched.map (fun o => o.map numTopics)), k ≤ l) ∧
    numTopics events
      = distinctCount ((events.filter (fun e => !e.2.isEmpty)).map Prod.fst) ∧
    (2 ≤ k →
      wait_for_published_signals [("t", List.range k)] k []
        = WaitOutcome.timedOut ∧
      k ≤ totalPub [("t", List.range k)]) := by
  have hknz : k ≠ 0 := by omega
  refine ⟨?_, ?_, ?_, ?_⟩
  · simp only [wait_for_published_signals, if_neg hknz]
    exact waitLoop_cases k (sched.map (fun o => o.map numTopics)) (numTopics events)
  · simp only [wait_for_published_signals, if_neg hknz]
    exact waitLoop_satisfied_iff k (sched.map (fun o => o.map numTopics))
      (numTopics events)
  · have hfilter : events.filter (fun e => !e.2.isEmpty) = events := by
      refine List.filter_eq_self.mpr (fun e he => ?_)
      simp [List.isEmpty_iff, hne e he]
    rw [hfilter, numTopics_eq_distinct]
  · intro h2
    constructor
    · have hone : numTopics [("t", List.range k)] = 1 := rfl
      simp only [wait_for_published_signals, if_neg hknz, List.map_nil, hone,
        waitLoop]
      rw [if_neg (by omega)]
    · simp [totalPub]

/-- The publish history for the C9 witness: one signal on each of two
topics. -/
def eventsW : List (String × List Nat) := [("t", [0]), ("u", [1])]

/-- Witness for C9: with two topics each holding one signal, a wait for
two published signals is settled by the topic count. -/
theorem wait_for_published_counts_topics_witness :
    (1 ≤ 2) ∧ (∀ e ∈ eventsW, e.2 ≠ []) ∧
    (wait_for_published_signals eventsW 2 [] = WaitOutcome.satisfied ∨
     wait_for_published_signals eventsW 2 [] = WaitOutcome.timedOut) ∧
    numTopics eventsW
      = distinctCount ((eventsW.filter (fun e => !e.2.isEmpty)).map Prod.fst) :=
  ⟨by decide, by decide,
   (wait_for_published_counts_topics 2 (by decide) eventsW [] (by decide)).1,
   (wait_for_published_counts_topics 2 (by decide) eventsW [] (by decide)).2.2.1⟩

/-- A config without an id key, as setUp line 146 allows (its dict key is
its name). -/
def rA : Resource := ⟨none, "a"⟩

/-- A config carrying id x (its dict key) and name b. -/
def rB : Resource := ⟨some "x", "b"⟩

/-- The block-config mapping for the C10 counterexample. -/
def cexResources : List (String × Resource) := [("a", rA), ("x", rB)]

/-- Counterexample for C10 as stated: looking up b - no exact key, no id
match, but the name of the second resource matches - raises a KeyError
anyway, because the id scan subscripts the first resource, which has no
id key, before any name comparison; so a KeyError is raised although one
of the three criteria matches. -/
theorem find_resource_missing_id_cex :
    find_resource "b" cexResources = Except.error FindErr.missingIdField ∧
    dictLookup cexResources "b" = none ∧
    (∃ r ∈ cexResources.map Prod.snd, r.name = "b") :=
  ⟨rfl, rfl, by decide⟩

/-- C10 as amended: provided every resource in the mapping carries an id
field, lookup resolves in the fixed priority order - exact mapping key,
then first id match, then first name match - and a KeyError is raised if
and only if none of the three match; in particular an id match always
beats a name match.  (Without the proviso, the id scan raises KeyError at
the first id-less resource even when a later name matches.) -/
theorem find_resource_priority (ident : String)
    (resources : List (String × Resource))
    (hid : ∀ p ∈ resources, (p.2).id.isSome) :
    (∀ r, dictLookup resources ident = some r →
      find_resource ident resources = Except.ok r) ∧
    (dictLookup resources ident = none →
      (∀ r, (resources.map Prod.snd).find? (fun x => x.id == some ident)
          = some r →
        find_resource ident resources = Except.ok r) ∧
      ((resources.map Prod.snd).find? (fun x => x.id == some ident) = none →
        (∀ r, (resources.map Prod.snd).find? (fun x => x.name == ident)
            = some r →
          find_resource ident resources = Except.ok r) ∧
        ((resources.map Prod.snd).find? (fun x => x.name == ident) = none →
          find_resource ident resources = Except.error FindErr.notFound))) ∧
    ((∃ e, find_resource ident resources = Except.error e) ↔
      (dictLookup resources ident = none ∧
       (resources.map Prod.snd).find? (fun x => x.id == some ident) = none ∧
       (resources.map Prod.snd).find? (fun x => x.name == ident) = none)) := by
  have hvals : ∀ r ∈ resources.map Prod.snd, r.id.isSome := by
    intro r hr
    obtain ⟨p, hp, hpr⟩ := List.mem_map.mp hr
    exact hpr ▸ hid p hp
  have hscan := scanById_eq_find ident (resources.map Prod.snd) hvals
  refine ⟨?_, ?_, ?_⟩
  · intro r h1
    simp [find_resource, h1]
  · intro h1
    constructor
    · intro r h2
      simp [find_resource, h1, hscan, h2]
    · intro h2
      constructor
      · intro r h3
        simp [find_resource, h1, hscan, h2, scanByName, h3]
      · intro h3
        simp [find_resource, h1, hscan, h2, scanByName, h3]
  · constructor
    · rintro ⟨e, he⟩
      rcases hd : dictLookup resources ident with _ | r
      · rcases hf : (resources.map Prod.snd).find? (fun x => x.id == some ident)
          with _ | r
        · rcases hn : (resources.map Prod.snd).find? (fun x => x.name == ident)
            with _ | r
          · exact ⟨rfl, hf, hn⟩
          · simp [find_resource, hd, hscan, hf, scanByName, hn] at he
        · simp [find_resource, hd, hscan, hf] at he
      · simp [find_resource, hd] at he
    · rintro ⟨h1, h2, h3⟩
      exact ⟨FindErr.notFound,
        by simp [find_resource, h1, hscan, h2, scanByName, h3]⟩

/-- Witness for C10 as amended: in a mapping whose every resource has an
id, the identifier b resolves to the resource named b through the name
scan after the exact key and the id scan both miss. -/
theorem find_resource_priority_witness :
    (∀ p ∈ [("x", rB)], (p.2).id.isSome) ∧
    find_resource "b" [("x", rB)] = Except.ok rB :=
  ⟨by decide,
   (((find_resource_priority "b" [("x", rB)] (by decide)).2.1 rfl).2 rfl).1
     rB rfl⟩
